import Mathlib

/-!
Verification of the glmext geometric primitive library.

The C++ sources are templated over a scalar type `T` (instantiated at
`float`/`double`).  Routines that involve no square roots are embedded over
`ℚ` (exact arithmetic, executable); routines using `sqrt`/`normalize` are
embedded over `ℝ` with `Real.sqrt`.  IEEE division by zero (which the
ray/box slab test can perform) is modelled explicitly with an extended
scalar type carrying `±∞`/`NaN`.
-/

namespace GlmQ

/-- 2-component vector over ℚ (glm::vec<2,T>). -/
structure Vec2 where
  x : ℚ
  y : ℚ
deriving DecidableEq, Repr

/-- 3-component vector over ℚ (glm::vec<3,T>). -/
structure Vec3 where
  x : ℚ
  y : ℚ
  z : ℚ
deriving DecidableEq, Repr

/-- `std::numeric_limits<T>::max()` idealized: the largest finite
single-precision value, `(2^24-1)·2^104`, exactly. -/
def TMAX : ℚ := (2 ^ 24 - 1) * 2 ^ 104

/-- `std::numeric_limits<T>::lowest()`. -/
def TLOWEST : ℚ := -TMAX

/-! ### aabox_t (AABox.h) -/

/-- `glm::aabox_t<T>`: 3D axis-aligned box with explicit empty flag. -/
structure aabox where
  mMin : Vec3
  mMax : Vec3
  mEmpty : Bool
deriving DecidableEq, Repr

/-- The default constructor `aabox_t()`: sentinel corners, empty flag set. -/
def aabox.empty : aabox :=
  { mMin := ⟨TMAX, TMAX, TMAX⟩
    mMax := ⟨TLOWEST, TLOWEST, TLOWEST⟩
    mEmpty := true }

/-- `operator+=(aabox_t<T>& b1, const vec<3,T>& p)` (AABox.h:205-217):
componentwise, raise `mMax` to `p` and lower `mMin` to `p`, then clear the
empty flag. -/
def aabox.addPoint (b1 : aabox) (p : Vec3) : aabox :=
  { mMin := ⟨if p.x < b1.mMin.x then p.x else b1.mMin.x,
             if p.y < b1.mMin.y then p.y else b1.mMin.y,
             if p.z < b1.mMin.z then p.z else b1.mMin.z⟩
    mMax := ⟨if p.x > b1.mMax.x then p.x else b1.mMax.x,
             if p.y > b1.mMax.y then p.y else b1.mMax.y,
             if p.z > b1.mMax.z then p.z else b1.mMax.z⟩
    mEmpty := false }

/-! ### aabox2_t (AABox2.h) -/

/-- `glm::aabox2_t<T>`: 2D axis-aligned box, the null state is the
sentinel `mMin > mMax`. -/
structure aabox2 where
  mMin : Vec2
  mMax : Vec2
deriving DecidableEq, Repr

/-- `aabox2_t::setNull()`: min at numeric max, max at numeric lowest. -/
def aabox2.null : aabox2 :=
  { mMin := ⟨TMAX, TMAX⟩, mMax := ⟨TLOWEST, TLOWEST⟩ }

/-- `aabox2_t::isNull()`. -/
def aabox2.isNull (b : aabox2) : Bool :=
  b.mMin.x > b.mMax.x || b.mMin.y > b.mMax.y

/-- `aabox2_t::extend(const vec<2,T>& p)` (AABox2.h:55-67). -/
def aabox2.extend (b : aabox2) (p : Vec2) : aabox2 :=
  if ¬b.isNull then
    { mMin := ⟨min p.x b.mMin.x, min p.y b.mMin.y⟩
      mMax := ⟨max p.x b.mMax.x, max p.y b.mMax.y⟩ }
  else
    { mMin := p, mMax := p }

/-- `operator+=(aabox2_t<T>& b1, const vec<2,T>& p)` (AABox2.h:146-157). -/
def aabox2.addPoint (b1 : aabox2) (p : Vec2) : aabox2 :=
  { mMin := ⟨if p.x < b1.mMin.x then p.x else b1.mMin.x,
             if p.y < b1.mMin.y then p.y else b1.mMin.y⟩
    mMax := ⟨if p.x > b1.mMax.x then p.x else b1.mMax.x,
             if p.y > b1.mMax.y then p.y else b1.mMax.y⟩ }

/-- `operator+=(aabox2_t<T>& b1, const aabox2_t<T>& b2)` (AABox2.h:160-166):
extend with `b2.mMin` then with `b2.mMax`. -/
def aabox2.addBox (b1 b2 : aabox2) : aabox2 :=
  (b1.addPoint b2.mMin).addPoint b2.mMax

/-- Componentwise `≤` on 2-vectors. -/
def Vec2.le (a b : Vec2) : Prop := a.x ≤ b.x ∧ a.y ≤ b.y

/-- Componentwise `≤` on 3-vectors. -/
def Vec3.le (a b : Vec3) : Prop := a.x ≤ b.x ∧ a.y ≤ b.y ∧ a.z ≤ b.z

instance (a b : Vec2) : Decidable (a.le b) := by unfold Vec2.le; infer_instance

instance (a b : Vec3) : Decidable (a.le b) := by unfold Vec3.le; infer_instance

/-! ### IEEE-style scalar with infinities (for the slab-test divisions)

The slab test divides by direction components that may be (near) zero.  In
IEEE arithmetic `x/0` is `±∞` for `x ≠ 0` and `NaN` for `x = 0`, and every
comparison against `NaN` is false.  Finite arithmetic is idealized as exact
rational arithmetic. -/

/-- Extended scalar: finite rational, `±∞`, or `NaN`. -/
inductive FE where
  | nan : FE
  | pinf : FE
  | ninf : FE
  | fin : ℚ → FE
deriving DecidableEq, Repr

namespace FE

/-- IEEE division of two finite values (the only division the slab test
performs): exact when the divisor is nonzero, otherwise `±∞`/`NaN`. -/
def fdiv (a b : ℚ) : FE :=
  if b = 0 then
    if a > 0 then pinf else if a < 0 then ninf else nan
  else fin (a / b)

/-- IEEE `<` (false whenever an operand is `NaN`). -/
def flt : FE → FE → Bool
  | nan, _ => false
  | _, nan => false
  | ninf, ninf => false
  | ninf, _ => true
  | _, ninf => false
  | pinf, _ => false
  | fin _, pinf => true
  | fin a, fin b => a < b

/-- IEEE `>`. -/
def fgt (a b : FE) : Bool := flt b a

end FE

/-! ### ray_t (Ray.h): slab-method ray/box intersection -/

/-- `glm::ray_t<T>`: origin plus (not necessarily unit) direction. -/
structure ray where
  mOrigin : Vec3
  mDir : Vec3
deriving DecidableEq, Repr

/-- The epsilon of `intersectAABoxRay`, `(T)0.0000001`. -/
def slabEps : ℚ := 1 / 10 ^ 7

/-- One slab narrowing step of `intersectAABoxRay` (Ray.h:212-227 and its
two textual repetitions for the other axes): compute `t0`/`t1` by division,
swap so `t0 ≤ t1`, then tighten `(tIn, tOut)`.  The returned flag records
whether the two divisions just performed had a divisor of magnitude below
`slabEps` (they are performed regardless). -/
def slabUpdate (bmin bmax o d : ℚ) (tIn tOut : FE) : FE × FE × Bool :=
  let t0 := FE.fdiv (bmin - o) d
  let t1 := FE.fdiv (bmax - o) d
  let p := if FE.fgt t0 t1 then (t1, t0) else (t0, t1)
  let tIn' := if FE.fgt p.1 tIn then p.1 else tIn
  let tOut' := if FE.flt p.2 tOut then p.2 else tOut
  (tIn', tOut', |d| < slabEps)

/-- The rejection test after each slab step (Ray.h:229): `tIn > tOut`
or `tOut < 0`. -/
def slabFail (tIn tOut : FE) : Bool :=
  FE.fgt tIn tOut || FE.flt tOut (FE.fin 0)

/-- `ray_t::intersectAABoxRay(const aabox_t<T>&, T&, T&)` (Ray.h:173-281),
instrumented: returns `(result, tIn, tOut, nearDiv)` where the outputs are
the values of the reference parameters at the return point and `nearDiv`
records whether any executed division had a divisor of magnitude below
`slabEps`.  The three `if (abs(mDir[i]) < epsilon)` parallel checks reject
early only when the origin coordinate is outside the slab; otherwise the
code falls through to the divisions. -/
def ray.intersectAABoxRayAux (r : ray) (box : aabox) : Bool × FE × FE × Bool :=
  let tIn : FE := FE.fin (-TMAX)
  let tOut : FE := FE.fin TMAX
  if |r.mDir.x| < slabEps ∧ (r.mOrigin.x < box.mMin.x ∨ r.mOrigin.x > box.mMax.x) then
    (false, tIn, tOut, false)
  else if |r.mDir.y| < slabEps ∧ (r.mOrigin.y < box.mMin.y ∨ r.mOrigin.y > box.mMax.y) then
    (false, tIn, tOut, false)
  else if |r.mDir.z| < slabEps ∧ (r.mOrigin.z < box.mMin.z ∨ r.mOrigin.z > box.mMax.z) then
    (false, tIn, tOut, false)
  else
    let sx := slabUpdate box.mMin.x box.mMax.x r.mOrigin.x r.mDir.x tIn tOut
    if slabFail sx.1 sx.2.1 then (false, sx.1, sx.2.1, sx.2.2)
    else
      let sy := slabUpdate box.mMin.y box.mMax.y r.mOrigin.y r.mDir.y sx.1 sx.2.1
      if slabFail sy.1 sy.2.1 then (false, sy.1, sy.2.1, sx.2.2 || sy.2.2)
      else
        let sz := slabUpdate box.mMin.z box.mMax.z r.mOrigin.z r.mDir.z sy.1 sy.2.1
        if slabFail sz.1 sz.2.1 then (false, sz.1, sz.2.1, sx.2.2 || sy.2.2 || sz.2.2)
        else (true, sz.1, sz.2.1, sx.2.2 || sy.2.2 || sz.2.2)

/-- `ray_t::intersectAABoxRay` proper (the C++ function does not expose the
division instrumentation). -/
def ray.intersectAABoxRay (r : ray) (box : aabox) : Bool × FE × FE :=
  let a := r.intersectAABoxRayAux box
  (a.1, a.2.1, a.2.2.1)

/-- `ray_t::intersect(const aabox_t<T>&, unsigned int&, T&, T&)`
(Ray.h:283-305): classify the slab result; if `tIn < 0` the ray starts
inside the box, one hit, and the exit parameter is copied into the `tIn`
output slot. -/
def ray.intersectAABox (r : ray) (box : aabox) : Bool × ℕ × FE × FE :=
  let a := r.intersectAABoxRay box
  if a.1 then
    if FE.flt a.2.1 (FE.fin 0) then (true, 1, a.2.2, a.2.2)
    else (true, 2, a.2.1, a.2.2)
  else (false, 0, a.2.1, a.2.2)

/-! ### plane_t (Plane.h) and plane/plane intersection (Intersection.h) -/

/-- `glm::dot` on 3-vectors. -/
def dotQ (a b : Vec3) : ℚ := a.x * b.x + a.y * b.y + a.z * b.z

/-- `glm::cross`. -/
def crossQ (a b : Vec3) : Vec3 :=
  ⟨a.y * b.z - a.z * b.y, a.z * b.x - a.x * b.z, a.x * b.y - a.y * b.x⟩

/-- `glm::lensq` (squared length). -/
def lensqQ (a : Vec3) : ℚ := dotQ a a

/-- `glm::plane_t<T>`: points `p` on the plane satisfy
`dot(p, normal) = d`. -/
structure plane where
  normal : Vec3
  d : ℚ
deriving DecidableEq, Repr

/-- 3×3 matrix as its three columns, matching glm's column-major
`mat3(c0, c1, c2)`. -/
structure Mat3 where
  c0 : Vec3
  c1 : Vec3
  c2 : Vec3
deriving DecidableEq, Repr

/-- `glm::determinant` of a `mat3` (`m[c][r]` is row `r` of column `c`). -/
def Mat3.det (m : Mat3) : ℚ :=
  m.c0.x * (m.c1.y * m.c2.z - m.c2.y * m.c1.z)
    - m.c1.x * (m.c0.y * m.c2.z - m.c2.y * m.c0.z)
    + m.c2.x * (m.c0.y * m.c1.z - m.c1.y * m.c0.z)

/-- `glm::inverse` of a `mat3`: adjugate over determinant (the external
math library's exact cofactor formula, idealized over ℚ). -/
def Mat3.inv (m : Mat3) : Mat3 :=
  let oneOverDet := 1 / m.det
  { c0 := ⟨ (m.c1.y * m.c2.z - m.c2.y * m.c1.z) * oneOverDet,
           -(m.c0.y * m.c2.z - m.c2.y * m.c0.z) * oneOverDet,
            (m.c0.y * m.c1.z - m.c1.y * m.c0.z) * oneOverDet⟩
    c1 := ⟨-(m.c1.x * m.c2.z - m.c2.x * m.c1.z) * oneOverDet,
            (m.c0.x * m.c2.z - m.c2.x * m.c0.z) * oneOverDet,
           -(m.c0.x * m.c1.z - m.c1.x * m.c0.z) * oneOverDet⟩
    c2 := ⟨ (m.c1.x * m.c2.y - m.c2.x * m.c1.y) * oneOverDet,
           -(m.c0.x * m.c2.y - m.c2.x * m.c0.y) * oneOverDet,
            (m.c0.x * m.c1.y - m.c1.x * m.c0.y) * oneOverDet⟩ }

/-- glm's row-vector product `v * M`: component `j` is `dot(v, M[j])`
(`M[j]` the `j`-th column). -/
def vecMulMat (v : Vec3) (m : Mat3) : Vec3 :=
  ⟨dotQ v m.c0, dotQ v m.c1, dotQ v m.c2⟩

/-- `glm::intersect(const plane_t<T>&, const plane_t<T>&, vec3&, vec3&)`
(Intersection.h:59-83).  The reference outputs are modelled by passing
their incoming values; on the parallel (`det == 0`) path they are
returned unchanged. -/
def intersectPlanes (p1 p2 : plane) (out_point out_direction : Vec3) :
    Bool × Vec3 × Vec3 :=
  let lineDir := crossQ p1.normal p2.normal
  let det := lensqQ lineDir
  if det = 0 then (false, out_point, out_direction)
  else
    let d1 := -p1.d
    let d2 := -p2.d
    let A : Mat3 := ⟨p1.normal, p2.normal, lineDir⟩
    let b : Vec3 := ⟨-d1, -d2, 0⟩
    (true, vecMulMat b A.inv, lineDir)

end GlmQ

namespace GlmR

noncomputable section

/-- 3-component vector over ℝ (glm::vec<3,T>), for the routines that use
square roots. -/
structure V3 where
  x : ℝ
  y : ℝ
  z : ℝ

/-- 4-component vector over ℝ (glm::vec<4,T>). -/
structure V4 where
  x : ℝ
  y : ℝ
  z : ℝ
  w : ℝ

instance : Add V3 := ⟨fun a b => ⟨a.x + b.x, a.y + b.y, a.z + b.z⟩⟩
instance : Sub V3 := ⟨fun a b => ⟨a.x - b.x, a.y - b.y, a.z - b.z⟩⟩
instance : SMul ℝ V3 := ⟨fun s a => ⟨s * a.x, s * a.y, s * a.z⟩⟩

/-- `glm::dot` on 3-vectors. -/
def dot3 (a b : V3) : ℝ := a.x * b.x + a.y * b.y + a.z * b.z

/-- `glm::lensq`. -/
def lensq3 (a : V3) : ℝ := dot3 a a

/-- `glm::cross`. -/
def cross3 (a b : V3) : V3 :=
  ⟨a.y * b.z - a.z * b.y, a.z * b.x - a.x * b.z, a.x * b.y - a.y * b.x⟩

/-- `glm::normalize`: divide by the Euclidean length. -/
def normalize3 (a : V3) : V3 := (Real.sqrt (dot3 a a))⁻¹ • a

/-! ### sphere_t (Sphere.h) and the ray/sphere intersectors -/

/-- `glm::sphere_t<T>`. -/
structure sphere where
  mCenter : V3
  mRadius : ℝ

/-- `glm::ray_t<T>` over ℝ. -/
structure rayR where
  mOrigin : V3
  mDir : V3

/-- `glm::intersect(const sphere_t<T>&, const ray_t<T>&, T& t0, T& t1)`
(Intersection.h:6-56).  The reference parameters are modelled by passing
their incoming values and returning their final values together with the
`int` hit count; branches that never write a parameter return it
unchanged. -/
def intersectSphereRay (s : sphere) (r : rayR) (t0 t1 : ℝ) : ℤ × ℝ × ℝ :=
  let offset := r.mOrigin - s.mCenter
  let a := lensq3 r.mDir
  let b := dot3 offset r.mDir
  let c := lensq3 offset - s.mRadius * s.mRadius
  let discriminant := b * b - a * c
  if discriminant < 0 then (0, t0, t1)
  else if discriminant > 0 then
    let root := Real.sqrt discriminant
    let invA := 1 / a
    let t0' := (-b - root) * invA
    let t1' := (-b + root) * invA
    if t0' ≥ 0 then (2, t0', t1')
    else if t1' ≥ 0 then (1, t1', t1')
    else (0, t0', t1')
  else
    let t0' := -b / a
    if t0' ≥ 0 then (1, t0', t1) else (0, t0', t1)

/-- `ray_t::intersect(const sphere_t<T>&, int& numhits, T& t0, T& t1)`
(Ray.h:99-156), returning `(return value, numhits, t0, t1)`.  The initial
value of `numhits` is not a parameter because the function assigns
`numhits = -1` on entry and every path overwrites it before returning. -/
def rayR.intersectSphere (r : rayR) (s : sphere) (t0 t1 : ℝ) :
    Bool × ℤ × ℝ × ℝ :=
  let offset := r.mOrigin - s.mCenter
  let a := lensq3 r.mDir
  let b := dot3 offset r.mDir
  let c := lensq3 offset - s.mRadius * s.mRadius
  let discriminant := b * b - a * c
  if discriminant < 0 then (false, 0, t0, t1)
  else if discriminant > 0 then
    let root := Real.sqrt discriminant
    let invA := 1 / a
    let t0' := (-b - root) * invA
    let t1' := (-b + root) * invA
    if t0' ≥ 0 then (true, 2, t0', t1')
    else if t1' ≥ 0 then (true, 1, t1', t1')
    else (false, 0, t0', t1')
  else
    let t0' := -b / a
    if t0' ≥ 0 then (true, 1, t0', t1) else (false, 0, t0', t1)

/-! ### plane_t basis generation and (un)projection (Plane.h:152-179) -/

/-- `glm::plane_t<T>` over ℝ. -/
structure planeR where
  normal : V3
  d : ℝ

/-- `plane_t::distanceTo(const vec<3,T>&)` (Plane.h:131-134). -/
def planeR.distanceTo (p : planeR) (pt : V3) : ℝ := dot3 p.normal pt - p.d

/-- `glm::generate_u` (Plane.h:152-160). -/
def generate_u (p : planeR) : V3 :=
  if |p.normal.x| > |p.normal.z| then
    normalize3 ⟨-p.normal.y, p.normal.x, 0⟩
  else
    normalize3 ⟨0, -p.normal.z, p.normal.y⟩

/-- `glm::generate_uv` (Plane.h:162-166): returns `(out_u, out_v)`. -/
def generate_uv (p : planeR) : V3 × V3 :=
  let u := generate_u p
  (u, cross3 u p.normal)

/-- `glm::project` (Plane.h:169-172): coordinates of `invec` in the
`(u, v)` basis. -/
def project (u v invec : V3) : ℝ × ℝ := (dot3 u invec, dot3 v invec)

/-- `glm::unproject` (Plane.h:174-179). -/
def unproject (p : planeR) (u v : V3) (invec : ℝ × ℝ) : V3 :=
  invec.1 • u + invec.2 • v + p.d • p.normal

/-! ### frustum_t (Frustum.h) -/

/-- 4×4 matrix as its four columns, matching glm's column-major layout:
`m[c][r]` of the source is row `r` of column `c` here. -/
structure M4 where
  c0 : V4
  c1 : V4
  c2 : V4
  c3 : V4

/-- The identity matrix. -/
def idM4 : M4 :=
  ⟨⟨1, 0, 0, 0⟩, ⟨0, 1, 0, 0⟩, ⟨0, 0, 1, 0⟩, ⟨0, 0, 0, 1⟩⟩

/-- `m * v` for a column-major 4×4 matrix. -/
def mulVec4 (m : M4) (v : V4) : V4 :=
  ⟨m.c0.x * v.x + m.c1.x * v.y + m.c2.x * v.z + m.c3.x * v.w,
   m.c0.y * v.x + m.c1.y * v.y + m.c2.y * v.z + m.c3.y * v.w,
   m.c0.z * v.x + m.c1.z * v.y + m.c2.z * v.z + m.c3.z * v.w,
   m.c0.w * v.x + m.c1.w * v.y + m.c2.w * v.z + m.c3.w * v.w⟩

/-- `glm::inverse` of a 4×4 matrix (the external math library): adjugate
over determinant, written with the standard 2×2-minor factorization.  Row
`r`, column `c` of the input is named `e(rc)` below. -/
def inv4 (m : M4) : M4 :=
  let e00 := m.c0.x; let e01 := m.c1.x; let e02 := m.c2.x; let e03 := m.c3.x
  let e10 := m.c0.y; let e11 := m.c1.y; let e12 := m.c2.y; let e13 := m.c3.y
  let e20 := m.c0.z; let e21 := m.c1.z; let e22 := m.c2.z; let e23 := m.c3.z
  let e30 := m.c0.w; let e31 := m.c1.w; let e32 := m.c2.w; let e33 := m.c3.w
  let s0 := e00 * e11 - e01 * e10
  let s1 := e00 * e12 - e02 * e10
  let s2 := e00 * e13 - e03 * e10
  let s3 := e01 * e12 - e02 * e11
  let s4 := e01 * e13 - e03 * e11
  let s5 := e02 * e13 - e03 * e12
  let k0 := e20 * e31 - e21 * e30
  let k1 := e20 * e32 - e22 * e30
  let k2 := e20 * e33 - e23 * e30
  let k3 := e21 * e32 - e22 * e31
  let k4 := e21 * e33 - e23 * e31
  let k5 := e22 * e33 - e23 * e32
  let det := s0 * k5 - s1 * k4 + s2 * k3 + s3 * k2 - s4 * k1 + s5 * k0
  let b00 := (e11 * k5 - e12 * k4 + e13 * k3) / det
  let b01 := (-e01 * k5 + e02 * k4 - e03 * k3) / det
  let b02 := (e31 * s5 - e32 * s4 + e33 * s3) / det
  let b03 := (-e21 * s5 + e22 * s4 - e23 * s3) / det
  let b10 := (-e10 * k5 + e12 * k2 - e13 * k1) / det
  let b11 := (e00 * k5 - e02 * k2 + e03 * k1) / det
  let b12 := (-e30 * s5 + e32 * s2 - e33 * s1) / det
  let b13 := (e20 * s5 - e22 * s2 + e23 * s1) / det
  let b20 := (e10 * k4 - e11 * k2 + e13 * k0) / det
  let b21 := (-e00 * k4 + e01 * k2 - e03 * k0) / det
  let b22 := (e30 * s4 - e31 * s2 + e33 * s0) / det
  let b23 := (-e20 * s4 + e21 * s2 - e23 * s0) / det
  let b30 := (-e10 * k3 + e11 * k1 - e12 * k0) / det
  let b31 := (e00 * k3 - e01 * k1 + e02 * k0) / det
  let b32 := (-e30 * s3 + e31 * s1 - e32 * s0) / det
  let b33 := (e20 * s3 - e21 * s1 + e22 * s0) / det
  ⟨⟨b00, b10, b20, b30⟩, ⟨b01, b11, b21, b31⟩, ⟨b02, b12, b22, b32⟩,
   ⟨b03, b13, b23, b33⟩⟩

/-- The 8 canonical clip-space cube corners of `extractPlanes`
(Frustum.h:143-153). -/
def clipPt : Fin 8 → V3
  | 0 => ⟨-1, -1, 0⟩
  | 1 => ⟨-1, 1, 0⟩
  | 2 => ⟨1, -1, 0⟩
  | 3 => ⟨1, 1, 0⟩
  | 4 => ⟨-1, -1, 1⟩
  | 5 => ⟨-1, 1, 1⟩
  | 6 => ⟨1, -1, 1⟩
  | 7 => ⟨1, 1, 1⟩

/-- The per-face corner index pattern of `extractPlanes`
(Frustum.h:154-162). -/
def faceIdx : Fin 6 → Fin 8 × Fin 8 × Fin 8 × Fin 8
  | 0 => (4, 5, 1, 0)
  | 1 => (2, 3, 7, 6)
  | 2 => (0, 2, 6, 4)
  | 3 => (1, 5, 7, 3)
  | 4 => (1, 3, 2, 0)
  | 5 => (5, 4, 6, 7)

/-- The unprojected corners `wpts` of `extractPlanes` (Frustum.h:164-169):
`inv * vec4(pt, 1)`, then divide the whole vector by its `w`. -/
def wpts (vp : M4) (i : Fin 8) : V4 :=
  let q := mulVec4 (inv4 vp) ⟨(clipPt i).x, (clipPt i).y, (clipPt i).z, 1⟩
  ⟨q.x / q.w, q.y / q.w, q.z / q.w, q.w / q.w⟩

/-- The `vec<3,T>` truncation the source applies to `wpts` entries. -/
def xyz (v : V4) : V3 := ⟨v.x, v.y, v.z⟩

/-- `frustum_t::extractPlanes(const mat<4,4,T>& viewProjectionMatrix)`
(Frustum.h:140-182), the corner-unprojection derivation.  The plane type
written here (fields `mNorm`/`mOffset` in the source) is mapped onto
`planeR`'s `normal`/`d`.  Note the face normal is normalized inline
(`glm::normalize` of the cross product) before the offset is computed;
the shared `normalize()` helper is never invoked. -/
def extractPlanes (vp : M4) : Fin 6 → planeR := fun i =>
  let idx := faceIdx i
  let vec1 := xyz (wpts vp idx.2.1) - xyz (wpts vp idx.1)
  let vec2 := xyz (wpts vp idx.2.2.1) - xyz (wpts vp idx.2.1)
  let nrm := normalize3 (cross3 vec2 vec1)
  { normal := nrm, d := dot3 nrm (xyz (wpts vp idx.2.1)) }

/-- The six raw Gribb–Hartmann plane equations of
`frustum_t::extractPlanes2` (Frustum.h:99-134), before `normalize()`. -/
def extractPlanes2Raw (m : M4) : Fin 6 → planeR := fun i =>
  match i with
  | 0 => { normal := ⟨m.c0.w + m.c0.x, m.c1.w + m.c1.x, m.c2.w + m.c2.x⟩
           d := m.c3.w + m.c3.x }
  | 1 => { normal := ⟨m.c0.w - m.c0.x, m.c1.w - m.c1.x, m.c2.w - m.c2.x⟩
           d := m.c3.w - m.c3.x }
  | 2 => { normal := ⟨m.c0.w + m.c0.y, m.c1.w + m.c1.y, m.c2.w + m.c2.y⟩
           d := m.c3.w + m.c3.y }
  | 3 => { normal := ⟨m.c0.w - m.c0.y, m.c1.w - m.c1.y, m.c2.w - m.c2.y⟩
           d := m.c3.w - m.c3.y }
  | 4 => { normal := ⟨m.c0.w + m.c0.z, m.c1.w + m.c1.z, m.c2.w + m.c2.z⟩
           d := m.c3.z + m.c3.w }
  | 5 => { normal := ⟨m.c0.w - m.c0.z, m.c1.w - m.c1.z, m.c2.w - m.c2.z⟩
           d := m.c3.w - m.c3.z }

/-- `frustum_t::normalize()` (Frustum.h:184-198): divide each plane's
normal components and offset by the normal's Euclidean length. -/
def frustumNormalize (f : Fin 6 → planeR) : Fin 6 → planeR := fun i =>
  let n := (f i).normal
  let len := Real.sqrt (n.x * n.x + n.y * n.y + n.z * n.z)
  { normal := ⟨n.x / len, n.y / len, n.z / len⟩, d := (f i).d / len }

/-- `frustum_t::extractPlanes2` (Frustum.h:99-136): the raw derivation
followed by `normalize()`. -/
def extractPlanes2 (m : M4) : Fin 6 → planeR :=
  frustumNormalize (extractPlanes2Raw m)

/-- The centroid of the 8 unprojected frustum corners — a point in the
interior of any nondegenerate frustum volume, used to witness normal
orientation. -/
def frustumCentroid (vp : M4) : V3 :=
  (8 : ℝ)⁻¹ • (xyz (wpts vp 0) + xyz (wpts vp 1) + xyz (wpts vp 2) +
    xyz (wpts vp 3) + xyz (wpts vp 4) + xyz (wpts vp 5) + xyz (wpts vp 6) +
    xyz (wpts vp 7))

/-- Modelled from the spec: the repository has no frustum containment
routine under src/ (only `plane_t::distanceTo`); the spec's "containment
test (signed distance against each of the 6 planes)" is modelled as: a
point is inside when its signed distance to every one of the 6 planes is
nonnegative. -/
def frustumContains (f : Fin 6 → planeR) (pt : V3) : Prop :=
  ∀ i : Fin 6, 0 ≤ (f i).distanceTo pt

end

end GlmR

/-! ## Theorems -/

namespace GlmQ

/-- `if p < a then p else a` is `min`. -/
lemma ite_lt_min (a p : ℚ) : (if p < a then p else a) = min a p := by
  rcases lt_or_le p a with h | h
  · simp [h, min_eq_right h.le]
  · simp [not_lt.2 h, min_eq_left h]

/-- `if p > a then p else a` is `max`. -/
lemma ite_gt_max (a p : ℚ) : (if p > a then p else a) = max a p := by
  rcases lt_or_le a p with h | h
  · simp [h, max_eq_right h.le]
  · simp [not_lt.2 h, max_eq_left h]

/-- C8: Extending an axis-aligned box with a point or with another box is
monotonic: the resulting box's min is the componentwise minimum and its max
the componentwise maximum of the inputs' min/max (for a point, of the old
corner and the point); consequently the result contains both inputs and
extending is idempotent on an already-contained point. -/
theorem C8_box_extend_monotonic :
    (∀ (b : aabox) (p : Vec3),
      (b.addPoint p).mMin.x = min b.mMin.x p.x ∧
      (b.addPoint p).mMin.y = min b.mMin.y p.y ∧
      (b.addPoint p).mMin.z = min b.mMin.z p.z ∧
      (b.addPoint p).mMax.x = max b.mMax.x p.x ∧
      (b.addPoint p).mMax.y = max b.mMax.y p.y ∧
      (b.addPoint p).mMax.z = max b.mMax.z p.z) ∧
    (∀ (b : aabox2) (p : Vec2),
      (b.addPoint p).mMin.x = min b.mMin.x p.x ∧
      (b.addPoint p).mMin.y = min b.mMin.y p.y ∧
      (b.addPoint p).mMax.x = max b.mMax.x p.x ∧
      (b.addPoint p).mMax.y = max b.mMax.y p.y) ∧
    (∀ (b : aabox2) (p : Vec2), ¬b.isNull = true →
      (b.extend p).mMin.x = min b.mMin.x p.x ∧
      (b.extend p).mMin.y = min b.mMin.y p.y ∧
      (b.extend p).mMax.x = max b.mMax.x p.x ∧
      (b.extend p).mMax.y = max b.mMax.y p.y) ∧
    (∀ (b1 b2 : aabox2), b2.mMin.le b2.mMax →
      (b1.addBox b2).mMin.x = min b1.mMin.x b2.mMin.x ∧
      (b1.addBox b2).mMin.y = min b1.mMin.y b2.mMin.y ∧
      (b1.addBox b2).mMax.x = max b1.mMax.x b2.mMax.x ∧
      (b1.addBox b2).mMax.y = max b1.mMax.y b2.mMax.y) ∧
    (∀ (b : aabox) (p : Vec3),
      (b.addPoint p).mMin.le b.mMin ∧ b.mMax.le (b.addPoint p).mMax ∧
      (b.addPoint p).mMin.le p ∧ Vec3.le p (b.addPoint p).mMax) ∧
    (∀ (b : aabox) (p : Vec3), b.mEmpty = false →
      b.mMin.le p → Vec3.le p b.mMax → b.addPoint p = b) ∧
    (∀ (b : aabox2) (p : Vec2), b.mMin.le p → Vec2.le p b.mMax →
      b.extend p = b) := by
  refine ⟨?_, ?_, ?_, ?_, ?_, ?_, ?_⟩
  · intro b p
    simp [aabox.addPoint, ite_lt_min, ite_gt_max]
  · intro b p
    simp [aabox2.addPoint, ite_lt_min, ite_gt_max]
  · intro b p h
    simp [aabox2.extend, h, min_comm, max_comm]
  · intro b1 b2 h
    obtain ⟨hx, hy⟩ := h
    simp only [aabox2.addBox, aabox2.addPoint, ite_lt_min, ite_gt_max]
    refine ⟨?_, ?_, ?_, ?_⟩ <;>
      · simp only [min_def, max_def]
        split_ifs <;> linarith
  · intro b p
    simp only [aabox.addPoint, Vec3.le]
    refine ⟨⟨?_, ?_, ?_⟩, ⟨?_, ?_, ?_⟩, ⟨?_, ?_, ?_⟩, ⟨?_, ?_, ?_⟩⟩ <;>
      · split_ifs <;> linarith
  · intro b p hE hlo hhi
    obtain ⟨l1, l2, l3⟩ := hlo
    obtain ⟨h1, h2, h3⟩ := hhi
    have hstep : b.addPoint p =
        ⟨⟨b.mMin.x, b.mMin.y, b.mMin.z⟩, ⟨b.mMax.x, b.mMax.y, b.mMax.z⟩,
          false⟩ := by
      simp only [aabox.addPoint]
      rw [if_neg (not_lt.2 l1), if_neg (not_lt.2 l2), if_neg (not_lt.2 l3),
        if_neg (not_lt.2 h1), if_neg (not_lt.2 h2), if_neg (not_lt.2 h3)]
    rw [hstep, ← hE]
  · intro b p hlo hhi
    obtain ⟨l1, l2⟩ := hlo
    obtain ⟨h1, h2⟩ := hhi
    have hnn : ¬b.isNull = true := by
      simp only [aabox2.isNull, Bool.or_eq_true, decide_eq_true_eq, not_or,
        not_lt]
      constructor <;> linarith
    unfold aabox2.extend
    rw [if_pos hnn, min_eq_right l1, min_eq_right l2, max_eq_right h1,
      max_eq_right h2]

/-- Witness for C8 at concrete inputs: a non-null 2D box extended with a
contained point is unchanged, and a non-empty 3D box extended with a
contained point is unchanged. -/
theorem C8_box_extend_monotonic_witness :
    aabox2.extend ⟨⟨0, 0⟩, ⟨2, 2⟩⟩ ⟨1, 1⟩ = ⟨⟨0, 0⟩, ⟨2, 2⟩⟩ ∧
    aabox.addPoint ⟨⟨0, 0, 0⟩, ⟨2, 2, 2⟩, false⟩ ⟨1, 1, 1⟩ =
      ⟨⟨0, 0, 0⟩, ⟨2, 2, 2⟩, false⟩ :=
  ⟨C8_box_extend_monotonic.2.2.2.2.2.2 ⟨⟨0, 0⟩, ⟨2, 2⟩⟩ ⟨1, 1⟩
      (by norm_num [Vec2.le]) (by norm_num [Vec2.le]),
   C8_box_extend_monotonic.2.2.2.2.2.1 ⟨⟨0, 0, 0⟩, ⟨2, 2, 2⟩, false⟩ ⟨1, 1, 1⟩
      rfl (by norm_num [Vec3.le]) (by norm_num [Vec3.le])⟩

/-- C10: Extending a default-constructed (empty) 3D `aabox_t` with any
point `p` (any value within the numeric range the sentinels encode) via
`operator+=` yields a non-empty box with `min = max = p`, because the empty
box's sentinel corners are min = numeric max and max = numeric lowest; more
generally `operator+=` leaves the box non-empty and preserves the invariant
`min ≤ max` componentwise on every box already satisfying it. -/
theorem C10_empty_extend_degenerate :
    (∀ p : Vec3, Vec3.le ⟨TLOWEST, TLOWEST, TLOWEST⟩ p →
      Vec3.le p ⟨TMAX, TMAX, TMAX⟩ →
      aabox.empty.addPoint p = ⟨p, p, false⟩) ∧
    (∀ (b : aabox) (p : Vec3), (b.addPoint p).mEmpty = false) ∧
    (∀ (b : aabox) (p : Vec3), b.mMin.le b.mMax →
      (b.addPoint p).mMin.le (b.addPoint p).mMax) := by
  refine ⟨?_, ?_, ?_⟩
  · intro p hlo hhi
    simp only [Vec3.le] at hlo hhi
    obtain ⟨l1, l2, l3⟩ := hlo
    obtain ⟨h1, h2, h3⟩ := hhi
    simp only [aabox.empty, aabox.addPoint, ite_lt_min, ite_gt_max]
    rw [min_eq_right h1, min_eq_right h2, min_eq_right h3,
      max_eq_right l1, max_eq_right l2, max_eq_right l3]
  · intro b p
    simp [aabox.addPoint]
  · intro b p h
    obtain ⟨h1, h2, h3⟩ := h
    simp only [aabox.addPoint, Vec3.le]
    refine ⟨?_, ?_, ?_⟩ <;> · split_ifs <;> linarith

/-- Witness for C10: extending the empty box with `(1, 2, 3)` gives the
degenerate box at that point. -/
theorem C10_empty_extend_degenerate_witness :
    aabox.empty.addPoint ⟨1, 2, 3⟩ = ⟨⟨1, 2, 3⟩, ⟨1, 2, 3⟩, false⟩ :=
  C10_empty_extend_degenerate.1 ⟨1, 2, 3⟩
    (by norm_num [Vec3.le, TLOWEST, TMAX]) (by norm_num [Vec3.le, TMAX])

end GlmQ

namespace GlmQ

/-- `slabFail` is false between a negative finite entry bound and a
positive finite exit bound. -/
lemma slabFail_ff (a b : ℚ) (ha : a < 0) (hb : 0 < b) :
    slabFail (FE.fin a) (FE.fin b) = false := by
  simp only [slabFail, FE.fgt, FE.flt, Bool.or_eq_false_iff,
    decide_eq_false_iff_not, not_lt]
  constructor <;> linarith

/-- A slab step on an axis whose origin coordinate is strictly inside the
slab keeps the running entry bound finite negative and the exit bound
finite positive, for every direction component (including zero: the IEEE
infinities produced by the divisions never tighten the interval). -/
lemma slabUpdate_inside (bmin bmax o d a b : ℚ) (hlo : bmin < o)
    (hhi : o < bmax) (ha : a < 0) (hb : 0 < b) :
    ∃ a' b', (slabUpdate bmin bmax o d (FE.fin a) (FE.fin b)).1 = FE.fin a' ∧
      (slabUpdate bmin bmax o d (FE.fin a) (FE.fin b)).2.1 = FE.fin b' ∧
      a' < 0 ∧ 0 < b' := by
  have hn : bmin - o < 0 := by linarith
  have hp : bmax - o > 0 := by linarith
  rcases lt_trichotomy d 0 with hd | hd | hd
  · -- negative direction component: the two division results swap
    have hd0 : d ≠ 0 := ne_of_lt hd
    have ht0 : (bmin - o) / d > 0 := div_pos_of_neg_of_neg hn hd
    have ht1 : (bmax - o) / d < 0 := div_neg_of_pos_of_neg hp hd
    have e0 : FE.fdiv (bmin - o) d = FE.fin ((bmin - o) / d) := by
      simp [FE.fdiv, hd0]
    have e1 : FE.fdiv (bmax - o) d = FE.fin ((bmax - o) / d) := by
      simp [FE.fdiv, hd0]
    have hsw : (bmax - o) / d < (bmin - o) / d := by linarith
    by_cases hA : a < (bmax - o) / d
    · by_cases hB : (bmin - o) / d < b
      · exact ⟨(bmax - o) / d, (bmin - o) / d,
          by simp [slabUpdate, e0, e1, FE.fgt, FE.flt, hsw, hA, hB],
          by simp [slabUpdate, e0, e1, FE.fgt, FE.flt, hsw, hA, hB],
          by linarith, by linarith⟩
      · exact ⟨(bmax - o) / d, b,
          by simp [slabUpdate, e0, e1, FE.fgt, FE.flt, hsw, hA, hB],
          by simp [slabUpdate, e0, e1, FE.fgt, FE.flt, hsw, hA, hB],
          by linarith, hb⟩
    · by_cases hB : (bmin - o) / d < b
      · exact ⟨a, (bmin - o) / d,
          by simp [slabUpdate, e0, e1, FE.fgt, FE.flt, hsw, hA, hB],
          by simp [slabUpdate, e0, e1, FE.fgt, FE.flt, hsw, hA, hB],
          ha, by linarith⟩
      · exact ⟨a, b,
          by simp [slabUpdate, e0, e1, FE.fgt, FE.flt, hsw, hA, hB],
          by simp [slabUpdate, e0, e1, FE.fgt, FE.flt, hsw, hA, hB],
          ha, hb⟩
  · -- zero direction: divisions produce -inf/+inf, which never tighten
    subst hd
    have h1 : ¬(bmin - o > 0) := by linarith
    have h3 : ¬(bmax - o < 0) := by linarith
    have e0 : FE.fdiv (bmin - o) 0 = FE.ninf := by simp [FE.fdiv, h1, hn]
    have e1 : FE.fdiv (bmax - o) 0 = FE.pinf := by simp [FE.fdiv, hp]
    exact ⟨a, b, by simp [slabUpdate, e0, e1, FE.fgt, FE.flt],
      by simp [slabUpdate, e0, e1, FE.fgt, FE.flt], ha, hb⟩
  · -- positive direction component
    have hd0 : d ≠ 0 := ne_of_gt hd
    have ht0 : (bmin - o) / d < 0 := div_neg_of_neg_of_pos hn hd
    have ht1 : (bmax - o) / d > 0 := div_pos hp hd
    have e0 : FE.fdiv (bmin - o) d = FE.fin ((bmin - o) / d) := by
      simp [FE.fdiv, hd0]
    have e1 : FE.fdiv (bmax - o) d = FE.fin ((bmax - o) / d) := by
      simp [FE.fdiv, hd0]
    have hsw : ¬((bmax - o) / d < (bmin - o) / d) := by linarith
    by_cases hA : a < (bmin - o) / d
    · by_cases hB : (bmax - o) / d < b
      · exact ⟨(bmin - o) / d, (bmax - o) / d,
          by simp [slabUpdate, e0, e1, FE.fgt, FE.flt, hsw, hA, hB],
          by simp [slabUpdate, e0, e1, FE.fgt, FE.flt, hsw, hA, hB],
          by linarith, by linarith⟩
      · exact ⟨(bmin - o) / d, b,
          by simp [slabUpdate, e0, e1, FE.fgt, FE.flt, hsw, hA, hB],
          by simp [slabUpdate, e0, e1, FE.fgt, FE.flt, hsw, hA, hB],
          by linarith, hb⟩
    · by_cases hB : (bmax - o) / d < b
      · exact ⟨a, (bmax - o) / d,
          by simp [slabUpdate, e0, e1, FE.fgt, FE.flt, hsw, hA, hB],
          by simp [slabUpdate, e0, e1, FE.fgt, FE.flt, hsw, hA, hB],
          ha, by linarith⟩
      · exact ⟨a, b,
          by simp [slabUpdate, e0, e1, FE.fgt, FE.flt, hsw, hA, hB],
          by simp [slabUpdate, e0, e1, FE.fgt, FE.flt, hsw, hA, hB],
          ha, hb⟩

end GlmQ

namespace GlmQ

/-- A ray whose origin is strictly inside the box yields one hit at the
exit parameter: the three parallel checks pass, each slab step keeps the
entry bound negative and the exit bound positive, so the classifier copies
tOut into the tIn slot with hit count 1. -/
lemma C4_general (box : aabox) (r : ray)
    (hx1 : box.mMin.x < r.mOrigin.x) (hx2 : r.mOrigin.x < box.mMax.x)
    (hy1 : box.mMin.y < r.mOrigin.y) (hy2 : r.mOrigin.y < box.mMax.y)
    (hz1 : box.mMin.z < r.mOrigin.z) (hz2 : r.mOrigin.z < box.mMax.z) :
    ∃ tOut : ℚ, 0 < tOut ∧
      r.intersectAABox box = (true, 1, FE.fin tOut, FE.fin tOut) := by
  have c1 : ¬(|r.mDir.x| < slabEps ∧
      (r.mOrigin.x < box.mMin.x ∨ r.mOrigin.x > box.mMax.x)) := by
    rintro ⟨-, h | h⟩ <;> linarith
  have c2 : ¬(|r.mDir.y| < slabEps ∧
      (r.mOrigin.y < box.mMin.y ∨ r.mOrigin.y > box.mMax.y)) := by
    rintro ⟨-, h | h⟩ <;> linarith
  have c3 : ¬(|r.mDir.z| < slabEps ∧
      (r.mOrigin.z < box.mMin.z ∨ r.mOrigin.z > box.mMax.z)) := by
    rintro ⟨-, h | h⟩ <;> linarith
  have hT : (0 : ℚ) < TMAX := by norm_num [TMAX]
  have hTn : (-TMAX : ℚ) < 0 := by norm_num [TMAX]
  obtain ⟨a1, b1, e1a, e1b, ha1, hb1⟩ :=
    slabUpdate_inside box.mMin.x box.mMax.x r.mOrigin.x r.mDir.x
      (-TMAX) TMAX hx1 hx2 hTn hT
  obtain ⟨a2, b2, e2a, e2b, ha2, hb2⟩ :=
    slabUpdate_inside box.mMin.y box.mMax.y r.mOrigin.y r.mDir.y
      a1 b1 hy1 hy2 ha1 hb1
  obtain ⟨a3, b3, e3a, e3b, ha3, hb3⟩ :=
    slabUpdate_inside box.mMin.z box.mMax.z r.mOrigin.z r.mDir.z
      a2 b2 hz1 hz2 ha2 hb2
  refine ⟨b3, hb3, ?_⟩
  simp only [ray.intersectAABox, ray.intersectAABoxRay,
    ray.intersectAABoxRayAux, if_neg c1, if_neg c2, if_neg c3]
  simp only [e1a, e1b, slabFail_ff a1 b1 ha1 hb1, Bool.false_eq_true,
    if_false]
  simp only [e2a, e2b, slabFail_ff a2 b2 ha2 hb2, Bool.false_eq_true,
    if_false]
  simp only [e3a, e3b, slabFail_ff a3 b3 ha3 hb3, Bool.false_eq_true,
    if_false]
  simp [FE.flt, ha3]

/-- C4: For every axis-aligned box and every ray whose origin lies strictly
inside the box, the ray/box intersection reports a hit with hit count
exactly 1, and the reported parameter (stored in the tIn output slot by
convention) equals the box's exit parameter tOut; in particular for the box
min (-1,-1,-1), max (1,1,1) and the ray with origin (0,0,0), direction
(1,0,0), it reports 1 hit with tOut = 1. -/
theorem C4_origin_inside_one_hit :
    (∀ (box : aabox) (r : ray),
      box.mMin.x < r.mOrigin.x → r.mOrigin.x < box.mMax.x →
      box.mMin.y < r.mOrigin.y → r.mOrigin.y < box.mMax.y →
      box.mMin.z < r.mOrigin.z → r.mOrigin.z < box.mMax.z →
      ∃ tOut : ℚ, 0 < tOut ∧
        r.intersectAABox box = (true, 1, FE.fin tOut, FE.fin tOut)) ∧
    ray.intersectAABox ⟨⟨0, 0, 0⟩, ⟨1, 0, 0⟩⟩ ⟨⟨-1, -1, -1⟩, ⟨1, 1, 1⟩, false⟩ =
      (true, 1, FE.fin 1, FE.fin 1) := by
  constructor
  · intro box r hx1 hx2 hy1 hy2 hz1 hz2
    exact C4_general box r hx1 hx2 hy1 hy2 hz1 hz2
  · simp only [ray.intersectAABox, ray.intersectAABoxRay,
      ray.intersectAABoxRayAux]
    norm_num [slabUpdate, slabFail, FE.fdiv, FE.fgt, FE.flt, slabEps, TMAX]

/-- Witness for C4: the spec's example — box min (-1,-1,-1), max (1,1,1),
ray origin (0,0,0), direction (1,0,0) — reports one hit at the exit
parameter, which is 1. -/
theorem C4_origin_inside_one_hit_witness :
    (∃ tOut : ℚ, 0 < tOut ∧
      ray.intersectAABox ⟨⟨0, 0, 0⟩, ⟨1, 0, 0⟩⟩
          ⟨⟨-1, -1, -1⟩, ⟨1, 1, 1⟩, false⟩ =
        (true, 1, FE.fin tOut, FE.fin tOut)) ∧
    ray.intersectAABox ⟨⟨0, 0, 0⟩, ⟨1, 0, 0⟩⟩ ⟨⟨-1, -1, -1⟩, ⟨1, 1, 1⟩, false⟩ =
      (true, 1, FE.fin 1, FE.fin 1) :=
  ⟨C4_origin_inside_one_hit.1 ⟨⟨-1, -1, -1⟩, ⟨1, 1, 1⟩, false⟩
      ⟨⟨0, 0, 0⟩, ⟨1, 0, 0⟩⟩ (by norm_num) (by norm_num) (by norm_num)
      (by norm_num) (by norm_num) (by norm_num),
   C4_origin_inside_one_hit.2⟩

end GlmQ

namespace GlmQ

/-- C3 counterexample: for the box [-1,1]³ and the ray with origin (0,0,0)
and direction (0,1,1), the x direction component 0 has magnitude below the
epsilon 1e-7 and the origin's x coordinate lies inside the box's x slab, so
no early rejection happens — yet the routine does reach the slab
computations and performs the division by that near-zero component (the
instrumentation flag is true), contradicting "no division by a direction
component of magnitude below 1e-7 is performed on any execution path". -/
theorem C3_counterexample :
    |(⟨⟨0, 0, 0⟩, ⟨0, 1, 1⟩⟩ : ray).mDir.x| < slabEps ∧
    ¬((⟨⟨0, 0, 0⟩, ⟨0, 1, 1⟩⟩ : ray).mOrigin.x <
        (⟨⟨-1, -1, -1⟩, ⟨1, 1, 1⟩, false⟩ : aabox).mMin.x ∨
      (⟨⟨0, 0, 0⟩, ⟨0, 1, 1⟩⟩ : ray).mOrigin.x >
        (⟨⟨-1, -1, -1⟩, ⟨1, 1, 1⟩, false⟩ : aabox).mMax.x) ∧
    (ray.intersectAABoxRayAux ⟨⟨0, 0, 0⟩, ⟨0, 1, 1⟩⟩
        ⟨⟨-1, -1, -1⟩, ⟨1, 1, 1⟩, false⟩).2.2.2 = true := by
  refine ⟨by norm_num [slabEps], by norm_num, ?_⟩
  simp only [ray.intersectAABoxRayAux]
  norm_num [slabUpdate, slabFail, FE.fdiv, FE.fgt, FE.flt, slabEps, TMAX]

/-- C3 (amended): the epsilon-parallel check per axis gives an early "no
intersection" exit only when the origin's coordinate on a below-epsilon
axis lies outside that axis's [min,max] (and then no division at all is
performed); when every below-epsilon axis has its origin coordinate inside
its slab the routine proceeds to the slab computations and does divide by
the near-zero direction component — in particular whenever the x component
is below epsilon the executed divisions include one by that component. -/
theorem C3_parallel_axis_policy :
    (∀ (box : aabox) (r : ray),
      ((|r.mDir.x| < slabEps ∧
          (r.mOrigin.x < box.mMin.x ∨ r.mOrigin.x > box.mMax.x)) ∨
       (|r.mDir.y| < slabEps ∧
          (r.mOrigin.y < box.mMin.y ∨ r.mOrigin.y > box.mMax.y)) ∨
       (|r.mDir.z| < slabEps ∧
          (r.mOrigin.z < box.mMin.z ∨ r.mOrigin.z > box.mMax.z))) →
      r.intersectAABoxRayAux box =
        (false, FE.fin (-TMAX), FE.fin TMAX, false)) ∧
    (∀ (box : aabox) (r : ray),
      (|r.mDir.x| < slabEps →
        box.mMin.x ≤ r.mOrigin.x ∧ r.mOrigin.x ≤ box.mMax.x) →
      (|r.mDir.y| < slabEps →
        box.mMin.y ≤ r.mOrigin.y ∧ r.mOrigin.y ≤ box.mMax.y) →
      (|r.mDir.z| < slabEps →
        box.mMin.z ≤ r.mOrigin.z ∧ r.mOrigin.z ≤ box.mMax.z) →
      |r.mDir.x| < slabEps →
      (r.intersectAABoxRayAux box).2.2.2 = true) := by
  constructor
  · intro box r h
    by_cases cx : |r.mDir.x| < slabEps ∧
        (r.mOrigin.x < box.mMin.x ∨ r.mOrigin.x > box.mMax.x)
    · simp [ray.intersectAABoxRayAux, cx]
    · by_cases cy : |r.mDir.y| < slabEps ∧
          (r.mOrigin.y < box.mMin.y ∨ r.mOrigin.y > box.mMax.y)
      · simp [ray.intersectAABoxRayAux, cx, cy]
      · have cz : |r.mDir.z| < slabEps ∧
            (r.mOrigin.z < box.mMin.z ∨ r.mOrigin.z > box.mMax.z) := by
          rcases h with h | h | h
          · exact absurd h cx
          · exact absurd h cy
          · exact h
        simp [ray.intersectAABoxRayAux, cx, cy, cz]
  · intro box r h1 h2 h3 hdx
    have c1 : ¬(|r.mDir.x| < slabEps ∧
        (r.mOrigin.x < box.mMin.x ∨ r.mOrigin.x > box.mMax.x)) := by
      rintro ⟨hd, h | h⟩ <;> rcases h1 hd with ⟨u, v⟩ <;> linarith
    have c2 : ¬(|r.mDir.y| < slabEps ∧
        (r.mOrigin.y < box.mMin.y ∨ r.mOrigin.y > box.mMax.y)) := by
      rintro ⟨hd, h | h⟩ <;> rcases h2 hd with ⟨u, v⟩ <;> linarith
    have c3 : ¬(|r.mDir.z| < slabEps ∧
        (r.mOrigin.z < box.mMin.z ∨ r.mOrigin.z > box.mMax.z)) := by
      rintro ⟨hd, h | h⟩ <;> rcases h3 hd with ⟨u, v⟩ <;> linarith
    have hflag : (slabUpdate box.mMin.x box.mMax.x r.mOrigin.x r.mDir.x
        (FE.fin (-TMAX)) (FE.fin TMAX)).2.2 = true := by
      simp [slabUpdate, hdx]
    simp only [ray.intersectAABoxRayAux, if_neg c1, if_neg c2, if_neg c3]
    split_ifs <;> simp [hflag]

/-- Witness for C3: a below-epsilon x component with origin outside the x
slab rejects with no division performed; with the origin inside the x slab
the division by the near-zero component is performed. -/
theorem C3_parallel_axis_policy_witness :
    ray.intersectAABoxRayAux ⟨⟨5, 0, 0⟩, ⟨0, 1, 1⟩⟩
        ⟨⟨-1, -1, -1⟩, ⟨1, 1, 1⟩, false⟩ =
      (false, FE.fin (-TMAX), FE.fin TMAX, false) ∧
    (ray.intersectAABoxRayAux ⟨⟨0, 3, 0⟩, ⟨0, 1, 1⟩⟩
        ⟨⟨-1, -1, -1⟩, ⟨1, 1, 1⟩, false⟩).2.2.2 = true :=
  ⟨C3_parallel_axis_policy.1 ⟨⟨-1, -1, -1⟩, ⟨1, 1, 1⟩, false⟩
      ⟨⟨5, 0, 0⟩, ⟨0, 1, 1⟩⟩
      (Or.inl ⟨by norm_num [slabEps], Or.inr (by norm_num)⟩),
   C3_parallel_axis_policy.2 ⟨⟨-1, -1, -1⟩, ⟨1, 1, 1⟩, false⟩
      ⟨⟨0, 3, 0⟩, ⟨0, 1, 1⟩⟩
      (fun _ => by norm_num)
      (fun h => by norm_num [slabEps] at h)
      (fun h => by norm_num [slabEps] at h)
      (by norm_num [slabEps])⟩

end GlmQ

namespace GlmQ

/-- The determinant of the matrix whose columns are `n1`, `n2`,
`cross(n1, n2)` is the squared length of the cross product. -/
lemma det_eq_lensq_cross (n1 n2 : Vec3) :
    (Mat3.mk n1 n2 (crossQ n1 n2)).det = lensqQ (crossQ n1 n2) := by
  obtain ⟨a1, a2, a3⟩ := n1
  obtain ⟨b1, b2, b3⟩ := n2
  simp only [Mat3.det, crossQ, lensqQ, dotQ]
  ring

/-- glm's `b * inverse(A)` solves the linear system whose rows are the
columns of `A`: its dot product with column `j` of `A` is `b`'s `j`-th
component. -/
lemma vecMulMat_inv_solves (A : Mat3) (b : Vec3) (h : A.det ≠ 0) :
    dotQ (vecMulMat b A.inv) A.c0 = b.x ∧
    dotQ (vecMulMat b A.inv) A.c1 = b.y ∧
    dotQ (vecMulMat b A.inv) A.c2 = b.z := by
  obtain ⟨⟨a11, a21, a31⟩, ⟨a12, a22, a32⟩, ⟨a13, a23, a33⟩⟩ := A
  obtain ⟨b1, b2, b3⟩ := b
  simp only [Mat3.det] at h
  refine ⟨?_, ?_, ?_⟩ <;>
  · simp only [vecMulMat, Mat3.inv, Mat3.det, dotQ]
    field_simp
    ring

/-- C5: Plane-plane intersection returns false exactly when the squared
length of `cross(n1, n2)` is zero — in particular for any two planes with
identical normals, regardless of offsets — and otherwise returns true with
`out_direction = cross(n1, n2)` and an `out_point` satisfying both plane
equations `dot(out_point, n1) = d1` and `dot(out_point, n2) = d2`. -/
theorem C5_plane_plane_intersection :
    (∀ (p1 p2 : plane) (pt dir : Vec3),
      (intersectPlanes p1 p2 pt dir).1 = false ↔
        lensqQ (crossQ p1.normal p2.normal) = 0) ∧
    (∀ (n : Vec3) (d1 d2 : ℚ) (pt dir : Vec3),
      (intersectPlanes ⟨n, d1⟩ ⟨n, d2⟩ pt dir).1 = false) ∧
    (∀ (p1 p2 : plane) (pt dir : Vec3),
      lensqQ (crossQ p1.normal p2.normal) ≠ 0 →
      (intersectPlanes p1 p2 pt dir).1 = true ∧
      (intersectPlanes p1 p2 pt dir).2.2 = crossQ p1.normal p2.normal ∧
      dotQ (intersectPlanes p1 p2 pt dir).2.1 p1.normal = p1.d ∧
      dotQ (intersectPlanes p1 p2 pt dir).2.1 p2.normal = p2.d) := by
  have key : ∀ (p1 p2 : plane) (pt dir : Vec3),
      lensqQ (crossQ p1.normal p2.normal) ≠ 0 →
      (intersectPlanes p1 p2 pt dir).1 = true ∧
      (intersectPlanes p1 p2 pt dir).2.2 = crossQ p1.normal p2.normal ∧
      dotQ (intersectPlanes p1 p2 pt dir).2.1 p1.normal = p1.d ∧
      dotQ (intersectPlanes p1 p2 pt dir).2.1 p2.normal = p2.d := by
    intro p1 p2 pt dir hne
    have hdet : (Mat3.mk p1.normal p2.normal
        (crossQ p1.normal p2.normal)).det ≠ 0 := by
      rw [det_eq_lensq_cross]; exact hne
    obtain ⟨h0, h1, h2⟩ := vecMulMat_inv_solves
      (Mat3.mk p1.normal p2.normal (crossQ p1.normal p2.normal))
      ⟨-(-p1.d), -(-p2.d), 0⟩ hdet
    refine ⟨?_, ?_, ?_, ?_⟩
    · simp [intersectPlanes, if_neg hne]
    · simp [intersectPlanes, if_neg hne]
    · simpa [intersectPlanes, if_neg hne, neg_neg] using h0
    · simpa [intersectPlanes, if_neg hne, neg_neg] using h1
  refine ⟨?_, ?_, key⟩
  · intro p1 p2 pt dir
    by_cases h : lensqQ (crossQ p1.normal p2.normal) = 0
    · simp [intersectPlanes, h]
    · simp [h, (key p1 p2 pt dir h).1]
  · intro n d1 d2 pt dir
    have hc : crossQ n n = ⟨0, 0, 0⟩ := by
      obtain ⟨a1, a2, a3⟩ := n
      simp only [crossQ, Vec3.mk.injEq]
      refine ⟨by ring, by ring, by ring⟩
    have h0 : lensqQ (crossQ n n) = 0 := by
      rw [hc]; simp [lensqQ, dotQ]
    simp [intersectPlanes, h0]

/-- Witness for C5: the planes x = 2 and y = 3 intersect in the line
through (2, 3, 0) with direction (0, 0, 1), and the reported point
satisfies both plane equations. -/
theorem C5_plane_plane_intersection_witness :
    (intersectPlanes ⟨⟨1, 0, 0⟩, 2⟩ ⟨⟨0, 1, 0⟩, 3⟩ ⟨0, 0, 0⟩ ⟨0, 0, 0⟩).1 =
      true ∧
    (intersectPlanes ⟨⟨1, 0, 0⟩, 2⟩ ⟨⟨0, 1, 0⟩, 3⟩ ⟨0, 0, 0⟩ ⟨0, 0, 0⟩).2.2 =
      crossQ ⟨1, 0, 0⟩ ⟨0, 1, 0⟩ ∧
    dotQ (intersectPlanes ⟨⟨1, 0, 0⟩, 2⟩ ⟨⟨0, 1, 0⟩, 3⟩
      ⟨0, 0, 0⟩ ⟨0, 0, 0⟩).2.1 ⟨1, 0, 0⟩ = 2 ∧
    dotQ (intersectPlanes ⟨⟨1, 0, 0⟩, 2⟩ ⟨⟨0, 1, 0⟩, 3⟩
      ⟨0, 0, 0⟩ ⟨0, 0, 0⟩).2.1 ⟨0, 1, 0⟩ = 3 :=
  C5_plane_plane_intersection.2.2 ⟨⟨1, 0, 0⟩, 2⟩ ⟨⟨0, 1, 0⟩, 3⟩ ⟨0, 0, 0⟩
    ⟨0, 0, 0⟩ (by norm_num [lensqQ, crossQ, dotQ])

end GlmQ

namespace GlmR

/-- Subtraction on `V3`, componentwise (unfolding lemma). -/
lemma V3.sub_def (a b : V3) : a - b = ⟨a.x - b.x, a.y - b.y, a.z - b.z⟩ := rfl

/-- Addition on `V3`, componentwise (unfolding lemma). -/
lemma V3.add_def (a b : V3) : a + b = ⟨a.x + b.x, a.y + b.y, a.z + b.z⟩ := rfl

/-- Scalar multiplication on `V3`, componentwise (unfolding lemma). -/
lemma V3.smul_def (s : ℝ) (a : V3) : s • a = ⟨s * a.x, s * a.y, s * a.z⟩ := rfl

/-- A nonzero vector has positive squared length. -/
lemma lensq3_pos (v : V3) (h : v ≠ ⟨0, 0, 0⟩) : 0 < lensq3 v := by
  by_contra hle
  push_neg at hle
  simp only [lensq3, dot3] at hle
  have hx : v.x = 0 := by
    nlinarith [mul_self_nonneg v.x, mul_self_nonneg v.y, mul_self_nonneg v.z]
  have hy : v.y = 0 := by
    nlinarith [mul_self_nonneg v.x, mul_self_nonneg v.y, mul_self_nonneg v.z]
  have hz : v.z = 0 := by
    nlinarith [mul_self_nonneg v.x, mul_self_nonneg v.y, mul_self_nonneg v.z]
  exact h (by cases v with | mk a b c => simp_all)

/-- C1: for a ray with nonzero direction and any sphere, with
`a = dot(D,D)`, `b = dot(O-C,D)`, `c = dot(O-C,O-C)-r²` and discriminant
`b²-ac`, the routine returns 0 hits when the discriminant is negative; when
it is positive it returns 2 hits `((-b-√disc)/a, (-b+√disc)/a)` if the
first is ≥ 0, 1 hit with the exit parameter in the t0 output slot if
`t0 < 0 ≤ t1`, 0 hits if `t1 < 0`; when it is zero, 1 hit at `-b/a` iff
that is ≥ 0 else 0 hits; and every reported parameter is ≥ 0. -/
theorem C1_ray_sphere_classification (s : sphere) (r : rayR)
    (t0 t1 a b c disc t0' t1' : ℝ)
    (hD : r.mDir ≠ ⟨0, 0, 0⟩)
    (ha : a = lensq3 r.mDir)
    (hb : b = dot3 (r.mOrigin - s.mCenter) r.mDir)
    (hc : c = lensq3 (r.mOrigin - s.mCenter) - s.mRadius * s.mRadius)
    (hd : disc = b * b - a * c)
    (ht0 : t0' = (-b - Real.sqrt disc) / a)
    (ht1 : t1' = (-b + Real.sqrt disc) / a) :
    (disc < 0 → intersectSphereRay s r t0 t1 = (0, t0, t1)) ∧
    (0 < disc → t0' ≥ 0 → intersectSphereRay s r t0 t1 = (2, t0', t1')) ∧
    (0 < disc → t0' < 0 → t1' ≥ 0 →
      intersectSphereRay s r t0 t1 = (1, t1', t1')) ∧
    (0 < disc → t1' < 0 → intersectSphereRay s r t0 t1 = (0, t0', t1')) ∧
    (disc = 0 → -b / a ≥ 0 → intersectSphereRay s r t0 t1 = (1, -b / a, t1)) ∧
    (disc = 0 → -b / a < 0 → intersectSphereRay s r t0 t1 = (0, -b / a, t1)) ∧
    (∀ (n : ℤ) (u v : ℝ), intersectSphereRay s r t0 t1 = (n, u, v) →
      (1 ≤ n → 0 ≤ u) ∧ (2 ≤ n → 0 ≤ v)) := by
  have hapos : 0 < a := ha ▸ lensq3_pos r.mDir hD
  have hEq : intersectSphereRay s r t0 t1 =
      (if disc < 0 then ((0 : ℤ), t0, t1)
       else if disc > 0 then
         (if t0' ≥ 0 then ((2 : ℤ), t0', t1')
          else if t1' ≥ 0 then ((1 : ℤ), t1', t1')
          else ((0 : ℤ), t0', t1'))
       else if -b / a ≥ 0 then ((1 : ℤ), -b / a, t1)
       else ((0 : ℤ), -b / a, t1)) := by
    simp only [intersectSphereRay]
    rw [← hb, ← hc, ← ha, ← hd, mul_one_div, mul_one_div, ← ht0, ← ht1]
  have hle : t0' ≤ t1' := by
    rw [ht0, ht1]
    exact (div_le_div_iff_of_pos_right hapos).2
      (by nlinarith [Real.sqrt_nonneg disc])
  refine ⟨?_, ?_, ?_, ?_, ?_, ?_, ?_⟩
  · intro h
    rw [hEq, if_pos h]
  · intro h1 h2
    rw [hEq, if_neg (by linarith), if_pos h1, if_pos h2]
  · intro h1 h2 h3
    rw [hEq, if_neg (by linarith), if_pos h1, if_neg (by linarith), if_pos h3]
  · intro h1 h2
    rw [hEq, if_neg (by linarith), if_pos h1, if_neg (by linarith),
      if_neg (by linarith)]
  · intro h1 h2
    rw [hEq, if_neg (by linarith), if_neg (by linarith), if_pos h2]
  · intro h1 h2
    rw [hEq, if_neg (by linarith), if_neg (by linarith), if_neg (by linarith)]
  · intro n u v heq
    rw [hEq] at heq
    split_ifs at heq with q1 q2 q3 q4 q5
    all_goals
      simp only [Prod.mk.injEq] at heq
      obtain ⟨hn, hu, hv⟩ := heq
      subst hn; subst hu; subst hv
      constructor <;> intro hnn
    · exact absurd hnn (by norm_num)
    · exact absurd hnn (by norm_num)
    · linarith
    · linarith
    · linarith
    · exact absurd hnn (by norm_num)
    · exact absurd hnn (by norm_num)
    · exact absurd hnn (by norm_num)
    · linarith
    · exact absurd hnn (by norm_num)
    · exact absurd hnn (by norm_num)
    · exact absurd hnn (by norm_num)

/-- Witness for C1: sphere center (0,0,0) radius 1, ray origin (0,0,5),
direction (0,0,-1): two hits at t = 4 and t = 6 (the spec's own example). -/
theorem C1_ray_sphere_classification_witness :
    intersectSphereRay ⟨⟨0, 0, 0⟩, 1⟩ ⟨⟨0, 0, 5⟩, ⟨0, 0, -1⟩⟩ 0 0 =
      (2, 4, 6) := by
  have h := C1_ray_sphere_classification ⟨⟨0, 0, 0⟩, 1⟩ ⟨⟨0, 0, 5⟩, ⟨0, 0, -1⟩⟩
    0 0 1 (-5) 24 1 4 6
    (by intro h; rw [V3.mk.injEq] at h; norm_num at h)
    (by norm_num [lensq3, dot3])
    (by norm_num [dot3, V3.sub_def])
    (by norm_num [lensq3, dot3, V3.sub_def])
    (by norm_num)
    (by rw [Real.sqrt_one]; norm_num)
    (by rw [Real.sqrt_one]; norm_num)
  exact h.2.1 (by norm_num) (by norm_num)

/-- C9: the two duplicate ray/sphere routines are equivalent: the free
function's hit count equals the member's `numhits` output, both write
identical t0/t1 values on every branch, and the member's boolean return is
true exactly when its reported hit count is positive. -/
theorem C9_duplicate_sphere_routines_agree (s : sphere) (r : rayR)
    (t0 t1 : ℝ) :
    (intersectSphereRay s r t0 t1).1 = (rayR.intersectSphere r s t0 t1).2.1 ∧
    (intersectSphereRay s r t0 t1).2.1 =
      (rayR.intersectSphere r s t0 t1).2.2.1 ∧
    (intersectSphereRay s r t0 t1).2.2 =
      (rayR.intersectSphere r s t0 t1).2.2.2 ∧
    ((rayR.intersectSphere r s t0 t1).1 = true ↔
      0 < (rayR.intersectSphere r s t0 t1).2.1) := by
  simp only [intersectSphereRay, rayR.intersectSphere]
  split_ifs <;> norm_num

end GlmR

namespace GlmR

/-- Orthonormal expansion: for a unit vector `u` orthogonal to the unit
plane normal `n`, projecting onto the basis `(u, cross(u,n))` and
unprojecting reconstructs the orthogonal projection onto the plane. -/
lemma unproject_project_abstract (u n : V3) (d : ℝ) (q : V3)
    (hu : lensq3 u = 1) (hn : lensq3 n = 1) (hc : dot3 u n = 0) :
    unproject ⟨n, d⟩ u (cross3 u n) (project u (cross3 u n) q) =
      q + (d - dot3 q n) • n := by
  obtain ⟨u1, u2, u3⟩ := u
  obtain ⟨n1, n2, n3⟩ := n
  obtain ⟨q1, q2, q3⟩ := q
  simp only [lensq3, dot3] at hu hn hc
  simp only [unproject, project, cross3, dot3, V3.smul_def, V3.add_def,
    V3.mk.injEq]
  refine ⟨?_, ?_, ?_⟩
  · linear_combination
      (q1 * (n1 * n1 + n2 * n2 + n3 * n3) - n1 * (q1 * n1 + q2 * n2 + q3 * n3)) * hu +
      (q1 - u1 * (q1 * u1 + q2 * u2 + q3 * u3)) * hn +
      (u1 * (q1 * n1 + q2 * n2 + q3 * n3) + n1 * (q1 * u1 + q2 * u2 + q3 * u3) -
        q1 * (u1 * n1 + u2 * n2 + u3 * n3)) * hc
  · linear_combination
      (q2 * (n1 * n1 + n2 * n2 + n3 * n3) - n2 * (q1 * n1 + q2 * n2 + q3 * n3)) * hu +
      (q2 - u2 * (q1 * u1 + q2 * u2 + q3 * u3)) * hn +
      (u2 * (q1 * n1 + q2 * n2 + q3 * n3) + n2 * (q1 * u1 + q2 * u2 + q3 * u3) -
        q2 * (u1 * n1 + u2 * n2 + u3 * n3)) * hc
  · linear_combination
      (q3 * (n1 * n1 + n2 * n2 + n3 * n3) - n3 * (q1 * n1 + q2 * n2 + q3 * n3)) * hu +
      (q3 - u3 * (q1 * u1 + q2 * u2 + q3 * u3)) * hn +
      (u3 * (q1 * n1 + q2 * n2 + q3 * n3) + n3 * (q1 * u1 + q2 * u2 + q3 * u3) -
        q3 * (u1 * n1 + u2 * n2 + u3 * n3)) * hc

/-- For a plane with unit normal, `generate_u` produces a unit vector
orthogonal to the normal (whichever branch is taken). -/
lemma generate_u_unit_orth (p : planeR) (hn : lensq3 p.normal = 1) :
    lensq3 (generate_u p) = 1 ∧ dot3 (generate_u p) p.normal = 0 := by
  obtain ⟨⟨n1, n2, n3⟩, d⟩ := p
  simp only [lensq3, dot3] at hn
  by_cases h : |n1| > |n3|
  · have hn1 : n1 ≠ 0 := by
      rintro rfl
      simp only [abs_zero] at h
      exact absurd h (not_lt.2 (abs_nonneg n3))
    have e : (-n2 * -n2 + n1 * n1 + 0 * 0 : ℝ) = n2 * n2 + n1 * n1 := by
      ring
    have hpos : (0 : ℝ) < n2 * n2 + n1 * n1 := by
      nlinarith [mul_self_nonneg n2, mul_self_pos.2 hn1]
    have hs0 : Real.sqrt (n2 * n2 + n1 * n1) ≠ 0 :=
      ne_of_gt (Real.sqrt_pos.2 hpos)
    have hsq : Real.sqrt (n2 * n2 + n1 * n1) *
        Real.sqrt (n2 * n2 + n1 * n1) = n2 * n2 + n1 * n1 :=
      Real.mul_self_sqrt hpos.le
    constructor
    · simp only [generate_u, if_pos h, normalize3, lensq3, dot3, V3.smul_def,
        e]
      field_simp
    · simp only [generate_u, if_pos h, normalize3, dot3, V3.smul_def, e]
      ring
  · have e : (0 * 0 + -n3 * -n3 + n2 * n2 : ℝ) = n3 * n3 + n2 * n2 := by
      ring
    have hpos : (0 : ℝ) < n3 * n3 + n2 * n2 := by
      rcases eq_or_ne n3 0 with h3 | h3
      · rcases eq_or_ne n2 0 with h2 | h2
        · exfalso
          rw [not_lt, h3, abs_zero] at h
          have : n1 = 0 := abs_nonpos_iff.1 h
          rw [this, h2, h3] at hn
          norm_num at hn
        · nlinarith [mul_self_nonneg n3, mul_self_pos.2 h2]
      · nlinarith [mul_self_pos.2 h3, mul_self_nonneg n2]
    have hs0 : Real.sqrt (n3 * n3 + n2 * n2) ≠ 0 :=
      ne_of_gt (Real.sqrt_pos.2 hpos)
    have hsq : Real.sqrt (n3 * n3 + n2 * n2) *
        Real.sqrt (n3 * n3 + n2 * n2) = n3 * n3 + n2 * n2 :=
      Real.mul_self_sqrt hpos.le
    constructor
    · simp only [generate_u, if_neg h, normalize3, lensq3, dot3, V3.smul_def,
        e]
      field_simp
    · simp only [generate_u, if_neg h, normalize3, dot3, V3.smul_def, e]
      ring

/-- C7: for every plane with unit normal, with `(u, v) = generate_uv`, the
composition `unproject ∘ project` sends every point to its orthogonal
projection onto the plane (`q + (d - dot(q,n)) n`), hence fixes exactly the
points on the plane: project and unproject are mutually inverse on the
plane. -/
theorem C7_project_unproject_roundtrip (p : planeR)
    (hn : lensq3 p.normal = 1) (q : V3) :
    (unproject p (generate_uv p).1 (generate_uv p).2
        (project (generate_uv p).1 (generate_uv p).2 q) =
      q + (p.d - dot3 q p.normal) • p.normal) ∧
    (dot3 q p.normal = p.d →
      unproject p (generate_uv p).1 (generate_uv p).2
        (project (generate_uv p).1 (generate_uv p).2 q) = q) := by
  obtain ⟨hu, hc⟩ := generate_u_unit_orth p hn
  have h1 : unproject p (generate_uv p).1 (generate_uv p).2
      (project (generate_uv p).1 (generate_uv p).2 q) =
      q + (p.d - dot3 q p.normal) • p.normal :=
    unproject_project_abstract (generate_u p) p.normal p.d q hu hn hc
  refine ⟨h1, fun hq => ?_⟩
  rw [h1, hq]
  obtain ⟨a, b, c⟩ := q
  simp [V3.smul_def, V3.add_def]

/-- Witness for C7: the horizontal plane z = 5 with unit normal (0,0,1):
the point (1,2,3) round-trips to its orthogonal projection (1,2,5), and a
point on the plane is fixed. -/
theorem C7_project_unproject_roundtrip_witness :
    (unproject ⟨⟨0, 0, 1⟩, 5⟩ (generate_uv ⟨⟨0, 0, 1⟩, 5⟩).1
        (generate_uv ⟨⟨0, 0, 1⟩, 5⟩).2
        (project (generate_uv ⟨⟨0, 0, 1⟩, 5⟩).1
          (generate_uv ⟨⟨0, 0, 1⟩, 5⟩).2 ⟨1, 2, 3⟩) =
      ⟨1, 2, 3⟩ + ((5 : ℝ) - dot3 ⟨1, 2, 3⟩ ⟨0, 0, 1⟩) • (⟨0, 0, 1⟩ : V3)) ∧
    (dot3 ⟨1, 2, 3⟩ (⟨0, 0, 1⟩ : V3) = (5 : ℝ) →
      unproject ⟨⟨0, 0, 1⟩, 5⟩ (generate_uv ⟨⟨0, 0, 1⟩, 5⟩).1
        (generate_uv ⟨⟨0, 0, 1⟩, 5⟩).2
        (project (generate_uv ⟨⟨0, 0, 1⟩, 5⟩).1
          (generate_uv ⟨⟨0, 0, 1⟩, 5⟩).2 ⟨1, 2, 3⟩) = ⟨1, 2, 3⟩) :=
  C7_project_unproject_roundtrip ⟨⟨0, 0, 1⟩, 5⟩
    (by norm_num [lensq3, dot3]) ⟨1, 2, 3⟩

end GlmR

namespace GlmR

/-- The external inverse routine fixes the identity matrix. -/
lemma inv4_id : inv4 idM4 = idM4 := by
  simp only [inv4, idM4, M4.mk.injEq, V4.mk.injEq]
  norm_num

/-- Unprojected corners of the identity view-projection: the clip corners
themselves. -/
lemma wpts_id (i : Fin 8) :
    wpts idM4 i = ⟨(clipPt i).x, (clipPt i).y, (clipPt i).z, 1⟩ := by
  simp only [wpts, inv4_id]
  simp only [mulVec4, idM4]
  norm_num

/-- The frustum centroid of the identity view-projection. -/
lemma frustumCentroid_id : frustumCentroid idM4 = ⟨0, 0, 1 / 2⟩ := by
  simp only [frustumCentroid, wpts_id, xyz, clipPt, V3.add_def, V3.smul_def,
    V3.mk.injEq]
  norm_num

/-- Evaluation of `glm::normalize` at a vector of known length. -/
lemma normalize3_eval (v : V3) (L : ℝ) (hL : 0 < L) (h : dot3 v v = L * L) :
    normalize3 v = ⟨v.x / L, v.y / L, v.z / L⟩ := by
  have hs : Real.sqrt (dot3 v v) = L := by
    rw [h]; exact Real.sqrt_mul_self hL.le
  simp [normalize3, hs, V3.smul_def, V3.mk.injEq, inv_mul_eq_div]

end GlmR

namespace GlmR

/-- LEFT plane of the corner-form extraction at the identity matrix. -/
lemma extractPlanes_id_0 : extractPlanes idM4 0 = ⟨⟨1, 0, 0⟩, -1⟩ := by
  have hc : normalize3 ⟨(2 : ℝ), 0, 0⟩ = ⟨1, 0, 0⟩ := by
    rw [normalize3_eval ⟨(2 : ℝ), 0, 0⟩ 2 (by norm_num) (by norm_num [dot3])]
    norm_num
  simp only [extractPlanes, faceIdx, wpts_id, clipPt, xyz, V3.sub_def]
  norm_num [cross3]
  rw [hc]
  norm_num [dot3, planeR.mk.injEq, V3.mk.injEq]

end GlmR

namespace GlmR

/-- RIGHT plane of the corner-form extraction at the identity matrix. -/
lemma extractPlanes_id_1 : extractPlanes idM4 1 = ⟨⟨-1, 0, 0⟩, -1⟩ := by
  have hc : normalize3 ⟨(-2 : ℝ), 0, 0⟩ = ⟨-1, 0, 0⟩ := by
    rw [normalize3_eval ⟨(-2 : ℝ), 0, 0⟩ 2 (by norm_num)
      (by norm_num [dot3])]
    norm_num
  simp only [extractPlanes, faceIdx, wpts_id, clipPt, xyz, V3.sub_def]
  norm_num [cross3]
  rw [hc]
  norm_num [dot3, planeR.mk.injEq, V3.mk.injEq]

/-- BOTTOM plane of the corner-form extraction at the identity matrix. -/
lemma extractPlanes_id_2 : extractPlanes idM4 2 = ⟨⟨0, 1, 0⟩, -1⟩ := by
  have hc : normalize3 ⟨(0 : ℝ), 2, 0⟩ = ⟨0, 1, 0⟩ := by
    rw [normalize3_eval ⟨(0 : ℝ), 2, 0⟩ 2 (by norm_num)
      (by norm_num [dot3])]
    norm_num
  simp only [extractPlanes, faceIdx, wpts_id, clipPt, xyz, V3.sub_def]
  norm_num [cross3]
  rw [hc]
  norm_num [dot3, planeR.mk.injEq, V3.mk.injEq]

/-- TOP plane of the corner-form extraction at the identity matrix. -/
lemma extractPlanes_id_3 : extractPlanes idM4 3 = ⟨⟨0, -1, 0⟩, -1⟩ := by
  have hc : normalize3 ⟨(0 : ℝ), -2, 0⟩ = ⟨0, -1, 0⟩ := by
    rw [normalize3_eval ⟨(0 : ℝ), -2, 0⟩ 2 (by norm_num)
      (by norm_num [dot3])]
    norm_num
  simp only [extractPlanes, faceIdx, wpts_id, clipPt, xyz, V3.sub_def]
  norm_num [cross3]
  rw [hc]
  norm_num [dot3, planeR.mk.injEq, V3.mk.injEq]

/-- NEAR plane of the corner-form extraction at the identity matrix. -/
lemma extractPlanes_id_4 : extractPlanes idM4 4 = ⟨⟨0, 0, 1⟩, 0⟩ := by
  have hc : normalize3 ⟨(0 : ℝ), 0, 4⟩ = ⟨0, 0, 1⟩ := by
    rw [normalize3_eval ⟨(0 : ℝ), 0, 4⟩ 4 (by norm_num)
      (by norm_num [dot3])]
    norm_num
  simp only [extractPlanes, faceIdx, wpts_id, clipPt, xyz, V3.sub_def]
  norm_num [cross3]
  rw [hc]
  norm_num [dot3, planeR.mk.injEq, V3.mk.injEq]

/-- FAR plane of the corner-form extraction at the identity matrix. -/
lemma extractPlanes_id_5 : extractPlanes idM4 5 = ⟨⟨0, 0, -1⟩, -1⟩ := by
  have hc : normalize3 ⟨(0 : ℝ), 0, -4⟩ = ⟨0, 0, -1⟩ := by
    rw [normalize3_eval ⟨(0 : ℝ), 0, -4⟩ 4 (by norm_num)
      (by norm_num [dot3])]
    norm_num
  simp only [extractPlanes, faceIdx, wpts_id, clipPt, xyz, V3.sub_def]
  norm_num [cross3]
  rw [hc]
  norm_num [dot3, planeR.mk.injEq, V3.mk.injEq]

/-- Gribb-Hartmann plane 0 at the identity matrix (after `normalize()`). -/
lemma extractPlanes2_id_0 :
    extractPlanes2 idM4 0 = ⟨⟨1, 0, 0⟩, 1⟩ := by
  simp only [extractPlanes2, frustumNormalize, extractPlanes2Raw, idM4]
  norm_num [Real.sqrt_one, planeR.mk.injEq, V3.mk.injEq]

/-- Gribb-Hartmann plane 1 at the identity matrix (after `normalize()`). -/
lemma extractPlanes2_id_1 :
    extractPlanes2 idM4 1 = ⟨⟨-1, 0, 0⟩, 1⟩ := by
  simp only [extractPlanes2, frustumNormalize, extractPlanes2Raw, idM4]
  norm_num [Real.sqrt_one, planeR.mk.injEq, V3.mk.injEq]

/-- Gribb-Hartmann plane 2 at the identity matrix (after `normalize()`). -/
lemma extractPlanes2_id_2 :
    extractPlanes2 idM4 2 = ⟨⟨0, 1, 0⟩, 1⟩ := by
  simp only [extractPlanes2, frustumNormalize, extractPlanes2Raw, idM4]
  norm_num [Real.sqrt_one, planeR.mk.injEq, V3.mk.injEq]

/-- Gribb-Hartmann plane 3 at the identity matrix (after `normalize()`). -/
lemma extractPlanes2_id_3 :
    extractPlanes2 idM4 3 = ⟨⟨0, -1, 0⟩, 1⟩ := by
  simp only [extractPlanes2, frustumNormalize, extractPlanes2Raw, idM4]
  norm_num [Real.sqrt_one, planeR.mk.injEq, V3.mk.injEq]

/-- Gribb-Hartmann plane 4 at the identity matrix (after `normalize()`). -/
lemma extractPlanes2_id_4 :
    extractPlanes2 idM4 4 = ⟨⟨0, 0, 1⟩, 1⟩ := by
  simp only [extractPlanes2, frustumNormalize, extractPlanes2Raw, idM4]
  norm_num [Real.sqrt_one, planeR.mk.injEq, V3.mk.injEq]

/-- Gribb-Hartmann plane 5 at the identity matrix (after `normalize()`). -/
lemma extractPlanes2_id_5 :
    extractPlanes2 idM4 5 = ⟨⟨0, 0, -1⟩, 1⟩ := by
  simp only [extractPlanes2, frustumNormalize, extractPlanes2Raw, idM4]
  norm_num [Real.sqrt_one, planeR.mk.injEq, V3.mk.injEq]

end GlmR

namespace GlmR


/-- Case split over `Fin 6` with numeral-literal cases. -/
lemma forall_fin6 {P : Fin 6 → Prop} (h0 : P 0) (h1 : P 1) (h2 : P 2)
    (h3 : P 3) (h4 : P 4) (h5 : P 5) : ∀ i, P i := by
  intro i
  fin_cases i <;> assumption

/-- `glm::normalize` of a nonzero vector has unit squared length. -/
lemma lensq3_normalize3 (v : V3) (h : v ≠ ⟨0, 0, 0⟩) :
    lensq3 (normalize3 v) = 1 := by
  have hp : 0 < dot3 v v := lensq3_pos v h
  have hs0 : Real.sqrt (dot3 v v) ≠ 0 := ne_of_gt (Real.sqrt_pos.2 hp)
  have hsq := Real.mul_self_sqrt hp.le
  simp only [normalize3, lensq3, dot3, V3.smul_def] at *
  field_simp

/-- Dividing a nonzero vector's components by its Euclidean length (the
shared `frustum_t::normalize()` step) yields a unit vector. -/
lemma unit_of_div_sqrt (n : V3) (h : n ≠ ⟨0, 0, 0⟩) :
    lensq3 ⟨n.x / Real.sqrt (n.x * n.x + n.y * n.y + n.z * n.z),
            n.y / Real.sqrt (n.x * n.x + n.y * n.y + n.z * n.z),
            n.z / Real.sqrt (n.x * n.x + n.y * n.y + n.z * n.z)⟩ = 1 := by
  have hp : 0 < n.x * n.x + n.y * n.y + n.z * n.z := lensq3_pos n h
  have hs0 : Real.sqrt (n.x * n.x + n.y * n.y + n.z * n.z) ≠ 0 :=
    ne_of_gt (Real.sqrt_pos.2 hp)
  have hsq := Real.mul_self_sqrt hp.le
  simp only [lensq3, dot3]
  field_simp

/-- C2 counterexample: the identity matrix is an invertible view-projection
for which the corner-unprojection derivation produces a LEFT plane with
unit normal (1,0,0) and offset -1 whose positive side contains the frustum
centroid (an interior point of the frustum volume [-1,1]²×[0,1]): the
normal points toward the interior, not outward away from it. -/
theorem C2_counterexample :
    extractPlanes idM4 0 = ⟨⟨1, 0, 0⟩, -1⟩ ∧
    frustumCentroid idM4 = ⟨0, 0, 1 / 2⟩ ∧
    0 < (extractPlanes idM4 0).distanceTo (frustumCentroid idM4) := by
  refine ⟨extractPlanes_id_0, frustumCentroid_id, ?_⟩
  rw [extractPlanes_id_0, frustumCentroid_id]
  norm_num [planeR.distanceTo, dot3]

/-- C2 (amended): both derivations produce 6 planes with unit-length
normals whenever the pre-normalization normal is nonzero; `extractPlanes2`
applies the shared normalization step (divide normal components and offset
by the normal's length) exactly once after its derivation, while
`extractPlanes` instead normalizes each face normal inline (`glm::normalize`
of the cross product) before computing the offset and never invokes the
shared step; and the two derivations orient their planes oppositely — at
the identity view-projection the corner-form planes put the frustum
centroid on the positive side (normals point inward, toward the interior),
while the Gribb-Hartmann planes put it on the negative side. -/
theorem C2_frustum_plane_derivations :
    (∀ m : M4, extractPlanes2 m = frustumNormalize (extractPlanes2Raw m)) ∧
    (∀ (m : M4) (i : Fin 6), (extractPlanes2Raw m i).normal ≠ ⟨0, 0, 0⟩ →
      lensq3 ((extractPlanes2 m i).normal) = 1) ∧
    (∀ (m : M4) (i : Fin 6),
      cross3 (xyz (wpts m (faceIdx i).2.2.1) - xyz (wpts m (faceIdx i).2.1))
          (xyz (wpts m (faceIdx i).2.1) - xyz (wpts m (faceIdx i).1)) ≠
        ⟨0, 0, 0⟩ →
      lensq3 ((extractPlanes m i).normal) = 1) ∧
    (∀ i : Fin 6,
      0 < (extractPlanes idM4 i).distanceTo (frustumCentroid idM4)) ∧
    (∀ i : Fin 6,
      (extractPlanes2 idM4 i).distanceTo (frustumCentroid idM4) < 0) := by
  refine ⟨fun m => rfl, ?_, ?_, ?_, ?_⟩
  · intro m i h
    simp only [extractPlanes2, frustumNormalize]
    exact unit_of_div_sqrt _ h
  · intro m i h
    simp only [extractPlanes]
    exact lensq3_normalize3 _ h
  · refine forall_fin6 ?_ ?_ ?_ ?_ ?_ ?_ <;>
      [rw [extractPlanes_id_0]; rw [extractPlanes_id_1];
       rw [extractPlanes_id_2]; rw [extractPlanes_id_3];
       rw [extractPlanes_id_4]; rw [extractPlanes_id_5]] <;>
      rw [frustumCentroid_id] <;>
      norm_num [planeR.distanceTo, dot3]
  · refine forall_fin6 ?_ ?_ ?_ ?_ ?_ ?_ <;>
      [rw [extractPlanes2_id_0]; rw [extractPlanes2_id_1];
       rw [extractPlanes2_id_2]; rw [extractPlanes2_id_3];
       rw [extractPlanes2_id_4]; rw [extractPlanes2_id_5]] <;>
      rw [frustumCentroid_id] <;>
      norm_num [planeR.distanceTo, dot3]

/-- Witness for C2: at the identity matrix both derivations yield a unit
LEFT-plane normal. -/
theorem C2_frustum_plane_derivations_witness :
    lensq3 ((extractPlanes2 idM4 0).normal) = 1 ∧
    lensq3 ((extractPlanes idM4 0).normal) = 1 :=
  ⟨C2_frustum_plane_derivations.2.1 idM4 0
      (by simp only [extractPlanes2Raw, idM4]
          norm_num [V3.mk.injEq]),
   C2_frustum_plane_derivations.2.2.1 idM4 0
      (by simp only [faceIdx, wpts_id, clipPt, xyz, V3.sub_def]
          norm_num [cross3, V3.mk.injEq])⟩

/-- C6: frustum plane extraction from the identity-like symmetric
projection (the identity view-projection matrix) yields 6 planes whose
normals are unit length (within 1e-5) and whose per-plane signed-distance
containment test classifies the camera-space origin as inside the
frustum.  The containment test itself is modelled from the spec (the
repository has `plane_t::distanceTo` but no frustum containment routine):
inside means nonnegative signed distance to all 6 planes. -/
theorem C6_identity_frustum_contains_origin :
    (∀ i : Fin 6,
      |Real.sqrt (lensq3 ((extractPlanes idM4 i).normal)) - 1| ≤ 1 / 10 ^ 5) ∧
    frustumContains (extractPlanes idM4) ⟨0, 0, 0⟩ := by
  constructor
  · refine forall_fin6 ?_ ?_ ?_ ?_ ?_ ?_ <;>
      [rw [extractPlanes_id_0]; rw [extractPlanes_id_1];
       rw [extractPlanes_id_2]; rw [extractPlanes_id_3];
       rw [extractPlanes_id_4]; rw [extractPlanes_id_5]] <;>
      norm_num [lensq3, dot3, Real.sqrt_one]
  · refine forall_fin6 ?_ ?_ ?_ ?_ ?_ ?_ <;>
      [rw [extractPlanes_id_0]; rw [extractPlanes_id_1];
       rw [extractPlanes_id_2]; rw [extractPlanes_id_3];
       rw [extractPlanes_id_4]; rw [extractPlanes_id_5]] <;>
      norm_num [planeR.distanceTo, dot3]

end GlmR
